import Mathlib

/-!
Shallow embedding of the formula & selection engine of the `sheet` repository
(a React/TypeScript spreadsheet).  The embedded code comes from
`src/utils/functions.ts` (formula evaluation, range and reference parsing),
`src/store/sheetStore.ts` (grid state, history, clipboard and row/column
operations) and `src/components/Cell.tsx` (the per-cell recalculation effect).

JavaScript strings are modelled as Lean `String`s manipulated at the
`List Char` level; JavaScript numbers as an inductive `JSNum` of NaN, signed
infinities and exact rationals (`-0` is not distinguished from `0`, and the
17-significant-digit float formatting of non-integral results is approximated;
no claim below depends on either).  Sparse JS objects used as cell maps are
modelled as insertion-ordered association lists with the JS property-update
semantics (replace in place if present, else append).
-/

namespace Sheet

/-! ## Models of the JavaScript primitives used by the source -/

/-- Model of the JS whitespace class used by `String.prototype.trim`
(restricted to the ASCII whitespace actually occurring in cell data). -/
def isJsWhitespace (c : Char) : Bool :=
  c == ' ' || c == '\t' || c == '\n' || c == '\r'

/-- Model of JS `String.prototype.trim`. -/
def jsTrim (s : String) : String :=
  String.mk (((s.data.dropWhile isJsWhitespace).reverse.dropWhile isJsWhitespace).reverse)

/-- The character class `[0-9]` of the JS regexes and of `Number` parsing. -/
def isDigitChar (c : Char) : Bool :=
  48 ≤ c.toNat && c.toNat ≤ 57

/-- The character class `[A-Za-z]` of the column-letter regex. -/
def isAsciiLetter (c : Char) : Bool :=
  (65 ≤ c.toNat && c.toNat ≤ 90) || (97 ≤ c.toNat && c.toNat ≤ 122)

/-- The character class `[A-Z]` of the `id.match(/[A-Z]+/)` idiom. -/
def isUpperLetter (c : Char) : Bool :=
  65 ≤ c.toNat && c.toNat ≤ 90

/-- ASCII-only model of the case mapping applied by JS `toUpperCase`. -/
def jsCharToUpper (c : Char) : Char :=
  if 97 ≤ c.toNat && c.toNat ≤ 122 then Char.ofNat (c.toNat - 32) else c

/-- ASCII-only model of the case mapping applied by JS `toLowerCase`. -/
def jsCharToLower (c : Char) : Char :=
  if 65 ≤ c.toNat && c.toNat ≤ 90 then Char.ofNat (c.toNat + 32) else c

/-- `listLeads p l` is true iff the char list `p` is an initial segment of `l`. -/
def listLeads : List Char → List Char → Bool
  | [], _ => true
  | _ :: _, [] => false
  | a :: as, b :: bs => a == b && listLeads as bs

/-- Model of JS `String.prototype.startsWith`. -/
def jsStartsWith (s p : String) : Bool :=
  listLeads p.data s.data

/-- Model of JS `String.prototype.slice(k)` (drop the first `k` characters). -/
def jsDrop (s : String) (k : Nat) : String :=
  String.mk (s.data.drop k)

/-- Model of JS `String.prototype.slice(k, -1)`: characters from index `k` up to,
but not including, the last character. -/
def sliceDropLast (s : String) (k : Nat) : String :=
  String.mk ((s.data.drop k).dropLast)

/-- Model of JS `String.prototype.split(sep)` for a one-character separator. -/
def jsSplitAux (sep : Char) : List Char → List Char → List String
  | [], cur => [String.mk cur.reverse]
  | c :: rest, cur =>
    if c == sep then String.mk cur.reverse :: jsSplitAux sep rest []
    else jsSplitAux sep rest (c :: cur)

/-- Model of JS `String.prototype.split(sep)` for a one-character separator. -/
def jsSplit (s : String) (sep : Char) : List String :=
  jsSplitAux sep s.data []

/-- Model of JS `String.prototype.toUpperCase` on ASCII data. -/
def jsToUpper (s : String) : String :=
  String.mk (s.data.map jsCharToUpper)

/-- Model of JS `String.prototype.toLowerCase` on ASCII data. -/
def jsToLower (s : String) : String :=
  String.mk (s.data.map jsCharToLower)

/-- The first maximal run of characters satisfying `p`, as matched by a JS
regex such as `/[A-Z]+/` or `/\d+/`; the empty string when there is no match,
modelling the source's `str.match(re)?.[0] || ''` idiom. -/
def firstMatchRun (p : Char → Bool) (s : String) : String :=
  String.mk ((s.data.dropWhile (fun c => !p c)).takeWhile p)

/-- Numeric value of a string of decimal digits, as computed by JS
`parseInt` on an all-digit string (`0` for the empty string, matching the
source's `parseInt(x.match(/\d+/)?.[0] || '0')` idiom). -/
def digitsToNat (s : String) : Nat :=
  s.data.foldl (fun a c => a * 10 + (c.toNat - 48)) 0

/-- Model of the JS template interpolation of a non-negative integer
(`${row}`): its decimal digit string.  The first argument is fuel making the
recursion structural (and hence kernel-computable); a call with fuel ≥ n
never exhausts it, since `n / 10 < n`. -/
def natToDigitsCore : Nat → Nat → List Char → List Char
  | _, 0, acc => acc
  | 0, _ + 1, acc => acc
  | fuel + 1, n + 1, acc =>
    natToDigitsCore fuel ((n + 1) / 10) (Char.ofNat (48 + (n + 1) % 10) :: acc)

/-- Decimal string of a non-negative integer, modelling JS number→string
conversion for the natural numbers occurring in cell addresses. -/
def jsNatToString (n : Nat) : String :=
  if n = 0 then "0" else String.mk (natToDigitsCore n n [])

/-- Decimal string of an integer, modelling JS number→string conversion for
the (always integral) row numbers manipulated by the store. -/
def jsIntToString (i : Int) : String :=
  if i < 0 then "-" ++ jsNatToString i.natAbs else jsNatToString i.toNat

/-! ## Model of JS numbers (`Number`, arithmetic, `toString`) -/

/-- JS numbers as used by the formula evaluator: NaN, the two infinities, or a
finite value (modelled exactly as a rational; `-0` is identified with `0`). -/
inductive JSNum where
  | nan : JSNum
  | inf (neg : Bool) : JSNum
  | num (q : ℚ) : JSNum
  deriving DecidableEq

/-- Exact rational addition, written with `mkRat` so that the kernel can
evaluate it (it is definitionally the same value as `a + b`). -/
def ratAdd (a b : ℚ) : ℚ :=
  mkRat (a.num * b.den + b.num * a.den) (a.den * b.den)

/-- Exact rational division for a non-zero divisor, written with `mkRat` for
kernel computability. -/
def ratDiv (a b : ℚ) : ℚ :=
  mkRat (a.num * b.den * b.num.sign) (a.den * b.num.natAbs)

/-- JS `+` on numbers. -/
def JSNum.add : JSNum → JSNum → JSNum
  | .nan, _ => .nan
  | _, .nan => .nan
  | .inf a, .inf b => if a = b then .inf a else .nan
  | .inf a, .num _ => .inf a
  | .num _, .inf b => .inf b
  | .num a, .num b => .num (ratAdd a b)

/-- JS `/` on numbers (`0/0 = NaN`, `x/0 = ±Infinity`; `-0` not modelled). -/
def JSNum.div : JSNum → JSNum → JSNum
  | .nan, _ => .nan
  | _, .nan => .nan
  | .inf _, .inf _ => .nan
  | .inf a, .num b => if b < 0 then .inf (!a) else .inf a
  | .num _, .inf _ => .num 0
  | .num a, .num b =>
    if b = 0 then (if a = 0 then .nan else .inf (decide (a < 0))) else .num (ratDiv a b)

/-- Binary `Math.max` (NaN-propagating). -/
def JSNum.maxJS : JSNum → JSNum → JSNum
  | .nan, _ => .nan
  | _, .nan => .nan
  | .inf true, b => b
  | a, .inf true => a
  | .inf false, _ => .inf false
  | _, .inf false => .inf false
  | .num a, .num b => .num (max a b)

/-- Binary `Math.min` (NaN-propagating). -/
def JSNum.minJS : JSNum → JSNum → JSNum
  | .nan, _ => .nan
  | _, .nan => .nan
  | .inf false, b => b
  | a, .inf false => a
  | .inf true, _ => .inf true
  | _, .inf true => .inf true
  | .num a, .num b => .num (min a b)

/-- Exact decimal expansion of a rational whose denominator divides `10 ^ k`,
used to print terminating decimal results the way JS does. -/
def decimalFractionString (q : ℚ) (k : Nat) : String :=
  let scaled : Nat := q.num.natAbs * 10 ^ k / q.den
  let digits := jsNatToString scaled
  let padded : List Char := List.replicate (k + 1 - digits.length) '0' ++ digits.data
  (if q.num < 0 then "-" else "") ++
    String.mk (padded.take (padded.length - k)) ++ "." ++
    String.mk (padded.drop (padded.length - k))

/-- JS number→string. Integers, NaN and the infinities are exact; terminating
decimals are printed exactly; a non-terminating decimal (never produced by the
formulas exercised in the claims) falls back to the rational's own
representation rather than JS's 17-digit float rounding. -/
def JSNum.toDisplayString : JSNum → String
  | .nan => "NaN"
  | .inf neg => if neg then "-Infinity" else "Infinity"
  | .num q =>
    if q.den = 1 then jsIntToString q.num
    else
      match (List.range 64).find? (fun k => 10 ^ k % q.den = 0) with
      | some k => decimalFractionString q k
      | none => jsIntToString q.num ++ "/" ++ jsNatToString q.den

/-- Parse an unsigned decimal literal (`123`, `1.5`, `.5`, `2.`, `1e3`,
`2.5E-1`) as a rational, modelling the decimal grammar accepted by JS
`Number`. Returns `none` when the text is not such a literal. -/
def parseDecimal (s : String) : Option ℚ :=
  let chars := s.data
  let intDigits := chars.takeWhile isDigitChar
  let rest := chars.drop intDigits.length
  let (fracDigits, rest) :=
    match rest with
    | '.' :: r => (r.takeWhile isDigitChar, r.drop (r.takeWhile isDigitChar).length)
    | _ => ([], rest)
  if intDigits.isEmpty && fracDigits.isEmpty then none
  else
    let base : Nat := digitsToNat (String.mk intDigits) * 10 ^ fracDigits.length +
      digitsToNat (String.mk fracDigits)
    match rest with
    | [] => some (mkRat base (10 ^ fracDigits.length))
    | e :: r =>
      if e == 'e' || e == 'E' then
        let (expNeg, digits) :=
          match r with
          | '-' :: d => (true, d)
          | '+' :: d => (false, d)
          | d => (false, d)
        if digits.isEmpty || !digits.all isDigitChar then none
        else
          let ex := digitsToNat (String.mk digits)
          some (if expNeg then mkRat base (10 ^ fracDigits.length * 10 ^ ex)
                else mkRat (base * 10 ^ ex) (10 ^ fracDigits.length))
      else none

/-- Value of a hex/octal/binary digit, or 99 when invalid for the radix. -/
def radixDigitVal (radix : Nat) (c : Char) : Nat :=
  let v :=
    if isDigitChar c then c.toNat - 48
    else if 97 ≤ c.toNat && c.toNat ≤ 102 then c.toNat - 87
    else if 65 ≤ c.toNat && c.toNat ≤ 70 then c.toNat - 55
    else 99
  if v < radix then v else 99

/-- Parse an unsigned `0x`/`0o`/`0b` radix literal, as accepted by JS `Number`. -/
def parseRadixLiteral (s : String) : Option ℚ :=
  let tryRadix : Nat → List Char → Option ℚ := fun radix digits =>
    if digits.isEmpty || digits.any (fun c => radixDigitVal radix c = 99) then none
    else some (mkRat (digits.foldl (fun a c => a * radix + radixDigitVal radix c) 0 : Nat) 1)
  match s.data with
  | '0' :: x :: rest =>
    if x == 'x' || x == 'X' then tryRadix 16 rest
    else if x == 'o' || x == 'O' then tryRadix 8 rest
    else if x == 'b' || x == 'B' then tryRadix 2 rest
    else none
  | _ => none

/-- Model of JS `Number(string)` coercion: trimmed empty string is `0`,
`±Infinity` and radix literals are honoured, otherwise the decimal grammar,
and anything else is NaN. -/
def jsToNumber (s : String) : JSNum :=
  let t := jsTrim s
  if t = "" then .num 0
  else if t = "Infinity" || t = "+Infinity" then .inf false
  else if t = "-Infinity" then .inf true
  else
    let signed := jsStartsWith t "-" || jsStartsWith t "+"
    let neg := jsStartsWith t "-"
    let u := if signed then jsDrop t 1 else t
    match (if signed then none else parseRadixLiteral u) with
    | some q => .num q
    | none =>
      match parseDecimal u with
      | some q => .num (if neg then mkRat (-q.num) q.den else q)
      | none => .nan

/-- `!isNaN(Number(v))`: the numeric-coercibility test used by the aggregate
formula branches. -/
def isNumericCoercible (v : String) : Bool :=
  jsToNumber v != JSNum.nan

/-- Model of JS `String.prototype.replaceAll` for a non-empty pattern. -/
def replaceAllAux (p : Char) (ps rep : List Char) : List Char → List Char
  | [] => []
  | c :: rest =>
    if listLeads (p :: ps) (c :: rest) then rep ++ replaceAllAux p ps rep (rest.drop ps.length)
    else c :: replaceAllAux p ps rep rest
  termination_by l => l.length
  decreasing_by
    · simp only [List.length_cons, List.length_drop]
      omega
    · simp only [List.length_cons]
      omega

/-- Model of JS `String.prototype.replaceAll` (the empty-pattern case, which
JS treats as insertion between characters, is left as the identity; it is
unreachable in the evaluated formulas). -/
def jsReplaceAll (s pat rep : String) : String :=
  match pat.data with
  | [] => s
  | p :: ps => String.mk (replaceAllAux p ps rep.data s.data)

/-! ## `src/utils/functions.ts` — reference/range parsing and formula evaluation -/

/-- The record returned by `parseReference`. -/
structure ParsedRef where
  colIndex : Nat
  row : Nat
  colAbsolute : Bool
  rowAbsolute : Bool
  original : String
  deriving DecidableEq

/-- `parseReference` from `utils/functions.ts`: strips `$` markers, reads the
leading letter run as the column and the remaining digits as the row; a JS
`throw` is modelled as `Except.error`. -/
def parseReference (ref : String) : Except String ParsedRef :=
  if ref = "" then .error ("Invalid cell reference: " ++ ref)
  else
    let original := jsTrim ref
    let workingRef := original
    let colAbsolute := jsStartsWith workingRef "$"
    let workingRef := if colAbsolute then jsDrop workingRef 1 else workingRef
    let colRun := String.mk (workingRef.data.takeWhile isAsciiLetter)
    if colRun = "" then .error ("Invalid cell reference: " ++ original)
    else
      let colLetter := jsToUpper colRun
      let workingRef := jsDrop workingRef colLetter.length
      let rowAbsolute := jsStartsWith workingRef "$"
      let workingRef := if rowAbsolute then jsDrop workingRef 1 else workingRef
      if workingRef = "" || !workingRef.data.all isDigitChar then
        .error ("Invalid cell reference: " ++ original)
      else
        let row := digitsToNat workingRef
        let colIndex := colLetter.data.foldl (fun a c => a * 26 + (c.toNat - 65)) 0
        .ok ⟨colIndex, row, colAbsolute, rowAbsolute, original⟩

/-- `normalizeReference` from `utils/functions.ts`. -/
def normalizeReference (ref : String) (currentCell : Option String) : String :=
  if currentCell = none || ref.data.contains '$' then String.mk (ref.data.filter (· != '$'))
  else ref

/-- The cell id string `${String.fromCharCode(65 + col)}${row}` built by the
range-expansion loop of `parseRange`. -/
def fromCharCodeRef (col row : Nat) : String :=
  String.mk (Char.ofNat (65 + col) :: (jsNatToString row).data)

/-- `parseRange` from `utils/functions.ts`: splits on `:`, parses the two
corners and enumerates the rectangle with an outer column loop and an inner
row loop; the `try/catch` around the corner parses degrades to `[]`. -/
def parseRange (range : String) (currentCell : Option String := none) : List String :=
  if range = "" || jsTrim range = "" then []
  else
    let parts := jsSplit range ':'
    let start := jsTrim (parts.headD "")
    let stop := if parts.length > 1 then jsTrim (parts.getD 1 "") else start
    if stop = "" then [normalizeReference start currentCell]
    else
      match parseReference start, parseReference stop with
      | .ok startRef, .ok endRef =>
        (List.range' startRef.colIndex (endRef.colIndex + 1 - startRef.colIndex)).flatMap
          (fun col => (List.range' startRef.row (endRef.row + 1 - startRef.row)).map
            (fun row => fromCharCodeRef col row))
      | _, _ => []

/-- One step of the character loop of `splitParameters`. -/
def splitParamStep (st : List String × String × Bool × Char) (c : Char) :
    List String × String × Bool × Char :=
  let (params, currentParam, inQuotes, quoteChar) := st
  if (c == '"' || c == '\'') && (!inQuotes || quoteChar == c) then
    (params, currentParam.push c, !inQuotes, if !inQuotes then c else quoteChar)
  else if c == ',' && !inQuotes then
    (params ++ [jsTrim currentParam], "", inQuotes, quoteChar)
  else
    (params, currentParam.push c, inQuotes, quoteChar)

/-- `splitParameters` from `utils/functions.ts`: split on commas outside
quotes (the JS initial `quoteChar = ''` is modelled by a space, which is never
read before being overwritten). -/
def splitParameters (paramString : String) : List String :=
  let st := paramString.data.foldl splitParamStep ([], "", false, ' ')
  if st.2.1 ≠ "" then st.1 ++ [jsTrim st.2.1] else st.1

/-- The quote-stripping regex `replace(/^["']|["']$/g, '')` applied to
FIND_AND_REPLACE arguments. -/
def stripQuotes (s : String) : String :=
  let s1 := if jsStartsWith s "\"" || jsStartsWith s "'" then jsDrop s 1 else s
  if s1.data.getLast? == some '"' || s1.data.getLast? == some '\'' then
    String.mk s1.data.dropLast
  else s1

/-- The SUM branch of `evaluateFormula` (argument: the text between `SUM(` and
the final `)`). -/
def sumBranch (rangeStr : String) (getCellValue : String → String) : String :=
  let values := ((parseRange rangeStr).map getCellValue).filter isNumericCoercible
  (values.foldl (fun sum val => JSNum.add sum (jsToNumber val)) (JSNum.num 0)).toDisplayString

/-- The AVERAGE branch of `evaluateFormula`. -/
def averageBranch (rangeStr : String) (getCellValue : String → String) : String :=
  let values := ((parseRange rangeStr).map getCellValue).filter isNumericCoercible
  (JSNum.div (values.foldl (fun sum val => JSNum.add sum (jsToNumber val)) (JSNum.num 0))
    (JSNum.num (mkRat (values.length : Int) 1))).toDisplayString

/-- The MAX branch of `evaluateFormula` (`Math.max(...)` starts at `-Infinity`). -/
def maxBranch (rangeStr : String) (getCellValue : String → String) : String :=
  let values := ((parseRange rangeStr).map getCellValue).filter isNumericCoercible
  ((values.map jsToNumber).foldl JSNum.maxJS (JSNum.inf true)).toDisplayString

/-- The MIN branch of `evaluateFormula` (`Math.min(...)` starts at `Infinity`). -/
def minBranch (rangeStr : String) (getCellValue : String → String) : String :=
  let values := ((parseRange rangeStr).map getCellValue).filter isNumericCoercible
  ((values.map jsToNumber).foldl JSNum.minJS (JSNum.inf false)).toDisplayString

/-- The COUNT branch of `evaluateFormula`. -/
def countBranch (rangeStr : String) (getCellValue : String → String) : String :=
  jsNatToString (((parseRange rangeStr).map getCellValue).filter isNumericCoercible).length

/-- `[...new Set(values)]`: de-duplication preserving first-occurrence order. -/
def jsSetDedup (values : List String) : List String :=
  values.foldl (fun acc v => if acc.contains v then acc else acc ++ [v]) []

/-- The REMOVE_DUPLICATES branch of `evaluateFormula`. -/
def removeDuplicatesBranch (rangeStr : String) (getCellValue : String → String) : String :=
  String.intercalate ", " (jsSetDedup ((parseRange rangeStr).map getCellValue))

/-- The FIND_AND_REPLACE branch of `evaluateFormula` (argument: the text the
source slices out with `slice(16, -1)`). -/
def findAndReplaceBranch (paramText : String) (getCellValue : String → String) : String :=
  let params := splitParameters paramText
  if params.length ≠ 3 then "#ERROR: Expected 3 parameters (range, find_text, replace_text)"
  else
    let rangeStr := params.getD 0 ""
    let cleanFindText := stripQuotes (params.getD 1 "")
    let cleanReplaceText := stripQuotes (params.getD 2 "")
    let values := (parseRange rangeStr).map getCellValue
    let replacedValues := values.map (fun v => jsReplaceAll v cleanFindText cleanReplaceText)
    String.intercalate ", " replacedValues

/-- `evaluateFormula` from `utils/functions.ts`: identity on text without a
leading `=`, otherwise uppercase prefix dispatch over the fixed function
table, falling back to the formula text itself.  The slice offsets `17` and
`16` for REMOVE_DUPLICATES/FIND_AND_REPLACE reproduce the source exactly
(`'REMOVE_DUPLICATES('` and `'FIND_AND_REPLACE('` have length 18 and 17). -/
def evaluateFormula (formula : String) (getCellValue : String → String) : String :=
  if !jsStartsWith formula "=" then formula
  else
    let cleanFormula := jsToUpper (jsDrop formula 1)
    if jsStartsWith cleanFormula "SUM(" then
      sumBranch (sliceDropLast cleanFormula 4) getCellValue
    else if jsStartsWith cleanFormula "AVERAGE(" then
      averageBranch (sliceDropLast cleanFormula 8) getCellValue
    else if jsStartsWith cleanFormula "MAX(" then
      maxBranch (sliceDropLast cleanFormula 4) getCellValue
    else if jsStartsWith cleanFormula "MIN(" then
      minBranch (sliceDropLast cleanFormula 4) getCellValue
    else if jsStartsWith cleanFormula "COUNT(" then
      countBranch (sliceDropLast cleanFormula 6) getCellValue
    else if jsStartsWith cleanFormula "TRIM(" then
      jsTrim (getCellValue (sliceDropLast cleanFormula 5))
    else if jsStartsWith cleanFormula "UPPER(" then
      jsToUpper (getCellValue (sliceDropLast cleanFormula 6))
    else if jsStartsWith cleanFormula "LOWER(" then
      jsToLower (getCellValue (sliceDropLast cleanFormula 6))
    else if jsStartsWith cleanFormula "REMOVE_DUPLICATES(" then
      removeDuplicatesBranch (sliceDropLast cleanFormula 17) getCellValue
    else if jsStartsWith cleanFormula "FIND_AND_REPLACE(" then
      findAndReplaceBranch (sliceDropLast cleanFormula 16) getCellValue
    else formula

/-! ## `src/store/sheetStore.ts` — grid state, history, clipboard, operations -/

/-- `CellStyle` from `types/sheet.ts`. -/
structure CellStyle where
  bold : Bool
  italic : Bool
  fontSize : Nat
  color : String
  deriving DecidableEq

/-- `CellData` from `types/sheet.ts` (the optional `id` field is never read by
the embedded operations and is omitted). -/
structure CellData where
  value : String
  formula : String
  style : CellStyle
  deriving DecidableEq

/-- A sparse JS object used as a cell map, as an insertion-ordered association
list with unique keys. -/
abbrev CellMap := List (String × CellData)

/-- `obj[key]` read on a cell map. -/
def lookupCell (cells : CellMap) (id : String) : Option CellData :=
  (cells.find? (fun p => p.1 == id)).map (·.2)

/-- `obj[key] = v` on a cell map: replace in place when the key is present,
append otherwise (the JS property-update order semantics). -/
def setCell (cells : CellMap) (id : String) (v : CellData) : CellMap :=
  if cells.any (fun p => p.1 == id) then
    cells.map (fun p => if p.1 == id then (id, v) else p)
  else cells ++ [(id, v)]

/-- `ClipboardData` from `types/sheet.ts` (the optional `type`/`data` fields,
read only by the enhanced clipboard methods that are not modelled, are
omitted). -/
structure ClipboardData where
  cells : CellMap
  topLeft : String
  bottomRight : String
  deriving DecidableEq

/-- `HistoryState` from `types/sheet.ts`. -/
structure HistoryState where
  cells : CellMap
  rows : Nat
  cols : Nat
  deriving DecidableEq

/-- The mutable zustand store state (`SheetState` minus its methods). -/
structure SheetState where
  cells : CellMap
  selectedCell : Option String
  selectedCells : List String
  rows : Nat
  cols : Nat
  isDragging : Bool
  dragStart : Option String
  dragStartCell : Option String
  clipboard : Option ClipboardData
  history : List HistoryState
  historyIndex : Int
  deriving DecidableEq

def DEFAULT_ROWS : Nat := 100
def DEFAULT_COLS : Nat := 26
def MAX_HISTORY : Nat := 50

/-- `createEmptyCell` from `sheetStore.ts`. -/
def createEmptyCell : CellData :=
  ⟨"", "", ⟨false, false, 14, "#000000"⟩⟩

/-- The initial store state. -/
def initialState : SheetState :=
  { cells := [], selectedCell := none, selectedCells := [], rows := DEFAULT_ROWS,
    cols := DEFAULT_COLS, isDragging := false, dragStart := none, dragStartCell := none,
    clipboard := none, history := [], historyIndex := -1 }

/-- `saveState`: push a snapshot of the current grid, truncating any redo
branch, capping the history at `MAX_HISTORY` and pointing the index at the
new last entry.  (`history.slice(0, historyIndex + 1)` is modelled with
`take`; the argument is never negative because `historyIndex ≥ -1`.) -/
def saveState (s : SheetState) : SheetState :=
  let currentState : HistoryState := ⟨s.cells, s.rows, s.cols⟩
  let newHistory :=
    if s.historyIndex < (s.history.length : Int) - 1 then
      s.history.take (s.historyIndex + 1).toNat
    else s.history
  let newHistory := newHistory ++ [currentState]
  let newHistory := if newHistory.length > MAX_HISTORY then newHistory.drop 1 else newHistory
  { s with history := newHistory, historyIndex := (newHistory.length : Int) - 1 }

/-- `undo`: restore the previous history entry, a no-op at index ≤ 0.  The
out-of-range default of `getD` is never read: `historyIndex <
history.length` is an invariant of every reachable state (proved below). -/
def undo (s : SheetState) : SheetState :=
  if s.historyIndex ≤ 0 then s
  else
    let newIndex := s.historyIndex - 1
    let previousState := s.history.getD newIndex.toNat ⟨[], 0, 0⟩
    { s with cells := previousState.cells, rows := previousState.rows,
             cols := previousState.cols, historyIndex := newIndex }

/-- `redo`: restore the next history entry, a no-op at the last index. -/
def redo (s : SheetState) : SheetState :=
  if s.historyIndex ≥ (s.history.length : Int) - 1 then s
  else
    let newIndex := s.historyIndex + 1
    let nextState := s.history.getD newIndex.toNat ⟨[], 0, 0⟩
    { s with cells := nextState.cells, rows := nextState.rows,
             cols := nextState.cols, historyIndex := newIndex }

/-- `addRow`. -/
def addRow (s : SheetState) : SheetState :=
  let s := saveState s
  { s with rows := s.rows + 1 }

/-- `deleteRow` (`Math.max(1, rows - 1)`). -/
def deleteRow (s : SheetState) : SheetState :=
  let s := saveState s
  { s with rows := max 1 (s.rows - 1) }

/-- `addColumn`. -/
def addColumn (s : SheetState) : SheetState :=
  let s := saveState s
  { s with cols := s.cols + 1 }

/-- `deleteColumn` (`Math.max(1, cols - 1)`). -/
def deleteColumn (s : SheetState) : SheetState :=
  let s := saveState s
  { s with cols := max 1 (s.cols - 1) }

/-- The `Partial<CellData>` patch taken by `updateCell`. -/
structure CellPatch where
  value : Option String
  formula : Option String
  style : Option CellStyle
  deriving DecidableEq

/-- `{...old, ...patch}` spread merge. -/
def applyPatch (c : CellData) (p : CellPatch) : CellData :=
  { value := p.value.getD c.value, formula := p.formula.getD c.formula,
    style := p.style.getD c.style }

/-- `updateCell` from `sheetStore.ts`. -/
def updateCell (s : SheetState) (id : String) (p : CellPatch) : SheetState :=
  let s := saveState s
  { s with cells := setCell s.cells id (applyPatch ((lookupCell s.cells id).getD createEmptyCell) p) }

/-- `setSelectedCell`. -/
def setSelectedCell (s : SheetState) (id : Option String) : SheetState :=
  { s with selectedCell := id }

/-- `setSelectedCells` (the `Array.isArray` branch; single-id input is just
a one-element list). -/
def setSelectedCells (s : SheetState) (ids : List String) : SheetState :=
  { s with selectedCells := ids }

/-- `startDrag`. -/
def startDrag (s : SheetState) (cellId : String) : SheetState :=
  { s with isDragging := true, dragStart := some cellId, dragStartCell := some cellId,
           selectedCells := [cellId] }

/-- `columnLetterToIndex` from `Toolbar.tsx` (`A=0, B=1, …, AA=26`). -/
def columnLetterToIndex (col : String) : Int :=
  col.data.foldl (fun r c => r * 26 + ((c.toNat : Int) - 64)) 0 - 1

/-- The loop body of `indexToColumnLetter` (second argument is the source's
`index + 1`; the first is fuel making the recursion structural, never
exhausted when fuel ≥ the argument). -/
def indexToColumnLetterCore : Nat → Nat → String → String
  | _, 0, acc => acc
  | 0, _ + 1, acc => acc
  | fuel + 1, n + 1, acc =>
    indexToColumnLetterCore fuel (n / 26) (String.mk (Char.ofNat (65 + n % 26) :: acc.data))

/-- `indexToColumnLetter` from `Toolbar.tsx` (`0 → "A", …, 25 → "Z",
26 → "AA"`); an index ≤ −1 yields `""`, as in the source. -/
def indexToColumnLetter (index : Int) : String :=
  indexToColumnLetterCore (index + 1).toNat (index + 1).toNat ""

/-- The column index parsed from a cell id by the `id.match(/[A-Z]+/)` idiom. -/
def idColIndex (id : String) : Int :=
  columnLetterToIndex (firstMatchRun isUpperLetter id)

/-- The row number parsed from a cell id by the
`parseInt(id.match(/\d+/)?.[0] || '0')` idiom. -/
def idRow (id : String) : Int :=
  (digitsToNat (firstMatchRun isDigitChar id) : Int)

/-- `getSelectionBetween` from `Toolbar.tsx`: min/max corner normalisation,
outer row loop, inner column loop. -/
def getSelectionBetween (start stop : String) : List String :=
  let startColIndex := idColIndex start
  let endColIndex := idColIndex stop
  let minCol := min startColIndex endColIndex
  let maxCol := max startColIndex endColIndex
  let minRow := min (idRow start) (idRow stop)
  let maxRow := max (idRow start) (idRow stop)
  (List.range (maxRow + 1 - minRow).toNat).flatMap (fun i =>
    (List.range (maxCol + 1 - minCol).toNat).map (fun j =>
      indexToColumnLetter (minCol + j) ++ jsIntToString (minRow + i)))

/-- `handleDrag`. -/
def handleDrag (s : SheetState) (cellId : String) : SheetState :=
  if !s.isDragging || s.dragStart = none then s
  else { s with selectedCells := getSelectionBetween (s.dragStart.getD "") cellId }

/-- `endDrag`. -/
def endDrag (s : SheetState) : SheetState :=
  { s with isDragging := false }

/-- `getTopLeftCell` from `Toolbar.tsx`: componentwise minimum over the
selection (the source starts its folds at `Infinity`; it is only ever called
on a non-empty selection, over whose ids the fold below computes the same
minimum, so the empty case — on which the source would not terminate — is
mapped to `""`). -/
def getTopLeftCell (cells : List String) : String :=
  match cells with
  | [] => ""
  | c :: rest =>
    let minCol := rest.foldl (fun m id => min m (idColIndex id)) (idColIndex c)
    let minRow := rest.foldl (fun m id => min m (idRow id)) (idRow c)
    indexToColumnLetter minCol ++ jsIntToString minRow

/-- `getBottomRightCell` from `Toolbar.tsx`: componentwise maximum over the
selection, with the source's `-1` fold starts. -/
def getBottomRightCell (cells : List String) : String :=
  let maxCol := cells.foldl (fun m id => max m (idColIndex id)) (-1)
  let maxRow := cells.foldl (fun m id => max m (idRow id)) (-1)
  indexToColumnLetter maxCol ++ jsIntToString maxRow

/-- `copySelectedCells` from `sheetStore.ts`: snapshot only the selected cells
that are present in the grid, plus the selection's corner ids (the
`navigator.clipboard` side effect has no bearing on the store state). -/
def copySelectedCells (s : SheetState) : SheetState :=
  if s.selectedCells.length = 0 then s
  else
    let cellsToCopy := s.selectedCells.foldl (fun acc cellId =>
      match lookupCell s.cells cellId with
      | some c => setCell acc cellId c
      | none => acc) []
    { s with clipboard := some ⟨cellsToCopy, getTopLeftCell s.selectedCells,
                                getBottomRightCell s.selectedCells⟩ }

/-- The destination id a snapshotted cell is pasted to, or `none` when the
offset destination falls outside the grid bounds (the skip branch of
`pasteCells`). -/
def pasteDest (cols rows : Nat) (topLeft target srcId : String) : Option String :=
  let colOffset := idColIndex target - idColIndex topLeft
  let rowOffset := idRow target - idRow topLeft
  let newColIndex := idColIndex srcId + colOffset
  let newRow := idRow srcId + rowOffset
  if newColIndex < 0 || newColIndex ≥ (cols : Int) || newRow ≤ 0 || newRow > (rows : Int) then
    none
  else some (indexToColumnLetter newColIndex ++ jsIntToString newRow)

/-- One step of the paste loop: skip an out-of-bounds destination, otherwise
overwrite the destination cell with the snapshotted cell. -/
def pasteStep (cols rows : Nat) (topLeft target : String) (nc : CellMap)
    (entry : String × CellData) : CellMap :=
  match pasteDest cols rows topLeft target entry.1 with
  | none => nc
  | some newCellId => setCell nc newCellId entry.2

/-- `pasteCells` from `sheetStore.ts`: save history, then write every
snapshotted cell at source-plus-offset, skipping out-of-bounds destinations.
(The source's second assignment for formula cells writes the identical
snapshot again and is folded into the single write.) -/
def pasteCells (s : SheetState) (targetCellId : String) : SheetState :=
  let s := saveState s
  match s.clipboard with
  | none => s
  | some clip =>
    let newCells := clip.cells.foldl
      (pasteStep s.cols s.rows clip.topLeft targetCellId) s.cells
    { s with cells := newCells }

/-- `cutSelection` from `sheetStore.ts`: snapshot the selection (absent cells
as empty-default), then clear the source cells (the enhanced `data` clipboard
field is not modelled; see `ClipboardData`). -/
def cutSelection (s : SheetState) : SheetState :=
  let s := saveState s
  if s.selectedCells.length = 0 then s
  else
    let snapshot := s.selectedCells.foldl (fun acc cellId =>
      setCell acc cellId ((lookupCell s.cells cellId).getD createEmptyCell)) []
    let newCells := s.selectedCells.foldl (fun nc cellId =>
      setCell nc cellId createEmptyCell) s.cells
    { s with clipboard := some ⟨snapshot, getTopLeftCell s.selectedCells,
                                getBottomRightCell s.selectedCells⟩,
             cells := newCells }

/-- `clearSpreadsheet` (the `window.confirm` answer is an input): reset every
in-bounds cell to empty-default. -/
def clearSpreadsheet (s : SheetState) (confirmed : Bool) : SheetState :=
  if confirmed then
    let s := saveState s
    let clearedCells := (List.range s.cols).foldl (fun acc col =>
      (List.range' 1 s.rows).foldl (fun acc2 row =>
        setCell acc2 (indexToColumnLetter (col : Int) ++ jsNatToString row) createEmptyCell)
        acc) []
    { s with cells := clearedCells }
  else s

/-! ## `src/components/Cell.tsx` — the per-cell recalculation effect -/

/-- The `getCellValue` closure of `Cell.tsx` and of the CSV import pass:
`cells[ref]?.value || ''`. -/
def getCellValueFrom (cells : CellMap) (ref : String) : String :=
  ((lookupCell cells ref).map (·.value)).getD ""

/-- One run of the recalculation `useEffect` of `Cell.tsx` for cell `id`: if
the cell has a formula, evaluate it against the current grid and write the
result back (through the store's `updateCell`) when it changed. -/
def recalcCell (s : SheetState) (id : String) : SheetState :=
  let cell := (lookupCell s.cells id).getD createEmptyCell
  if cell.formula ≠ "" then
    let value := evaluateFormula cell.formula (getCellValueFrom s.cells)
    if value ≠ cell.value then updateCell s id ⟨some value, none, none⟩ else s
  else s

/-- The character loop of the CSV line parser of `importFromCSV` (quoted
values may contain commas; a doubled quote inside quotes is a literal quote). -/
def parseCSVLine : List Char → String → Bool → List String → List String
  | [], cur, _, acc => acc ++ [cur]
  | '"' :: '"' :: rest, cur, true, acc => parseCSVLine rest (cur.push '"') true acc
  | '"' :: rest, cur, inQuotes, acc => parseCSVLine rest cur (!inQuotes) acc
  | ',' :: rest, cur, false, acc => parseCSVLine rest "" false (acc ++ [cur])
  | c :: rest, cur, inQuotes, acc => parseCSVLine rest (cur.push c) inQuotes acc

/-- Processing of one CSV line by `importFromCSV`: blank lines are skipped
(their row index still advances), each field becomes a cell — a leading `=`
stores the text as a formula with an empty value — and the row/column maxima
are tracked.  State: `(cells, maxRow, maxCol)`. -/
def importLine (rowIndex : Nat) (line : String) (st : CellMap × Nat × Nat) :
    CellMap × Nat × Nat :=
  if jsTrim line = "" then st
  else
    let values := parseCSVLine line.data "" false []
    let cells := values.enum.foldl (fun cs (p : Nat × String) =>
      setCell cs (indexToColumnLetter (p.1 : Int) ++ jsNatToString (rowIndex + 1))
        ⟨if jsStartsWith p.2 "=" then "" else p.2,
         if jsStartsWith p.2 "=" then p.2 else "",
         createEmptyCell.style⟩) st.1
    (cells, max st.2.1 rowIndex, max st.2.2 (values.length - 1))

/-- `importFromCSV` from `sheetStore.ts`, taking the file's text content:
save history, parse all lines into a fresh cell map, grow the grid bounds,
then (the deferred second event-loop turn) evaluate every formula cell in
key order against the progressively updated map. -/
def importFromCSV (s : SheetState) (content : String) : SheetState :=
  let s := saveState s
  let lines := jsSplit content '\n'
  let parsed := lines.enum.foldl (fun st (p : Nat × String) => importLine p.1 p.2 st)
    (([] : CellMap), 0, 0)
  let s := { s with cells := parsed.1, rows := max s.rows (parsed.2.1 + 1),
                    cols := max s.cols (parsed.2.2 + 1) }
  let evaluated := (s.cells.map Prod.fst).foldl (fun cs cellId =>
    match lookupCell cs cellId with
    | some cell =>
      if jsStartsWith cell.formula "=" then
        setCell cs cellId { cell with value := evaluateFormula cell.formula (getCellValueFrom cs) }
      else cs
    | none => cs) s.cells
  { s with cells := evaluated }

/-! ## Operation words over the store -/

/-- The user-facing store operations modelled above (every mutator of
`sheetStore.ts` except `exportToCSV`, which does not write the state, and the
enhanced `copySelection`/`pasteSelection` variants), plus the `Cell.tsx`
recalculation effect. -/
inductive Op where
  | updateCellOp (id : String) (p : CellPatch)
  | addRowOp
  | deleteRowOp
  | addColumnOp
  | deleteColumnOp
  | undoOp
  | redoOp
  | setSelectedCellOp (id : Option String)
  | setSelectedCellsOp (ids : List String)
  | startDragOp (id : String)
  | handleDragOp (id : String)
  | endDragOp
  | copyOp
  | pasteOp (target : String)
  | cutOp
  | clearOp (confirmed : Bool)
  | importOp (content : String)
  | recalcOp (id : String)

/-- Dispatch of an operation to its store method. -/
def applyOp (s : SheetState) : Op → SheetState
  | .updateCellOp id p => updateCell s id p
  | .addRowOp => addRow s
  | .deleteRowOp => deleteRow s
  | .addColumnOp => addColumn s
  | .deleteColumnOp => deleteColumn s
  | .undoOp => undo s
  | .redoOp => redo s
  | .setSelectedCellOp id => setSelectedCell s id
  | .setSelectedCellsOp ids => setSelectedCells s ids
  | .startDragOp id => startDrag s id
  | .handleDragOp id => handleDrag s id
  | .endDragOp => endDrag s
  | .copyOp => copySelectedCells s
  | .pasteOp target => pasteCells s target
  | .cutOp => cutSelection s
  | .clearOp confirmed => clearSpreadsheet s confirmed
  | .importOp content => importFromCSV s content
  | .recalcOp id => recalcCell s id

/-- A sequence of operations applied from the left. -/
def applyOps (ops : List Op) (s : SheetState) : SheetState :=
  ops.foldl applyOp s

/-- Operations that unconditionally mutate the grid — exactly those whose
store method begins with a `saveState()` call. -/
def isMutating : Op → Bool
  | .updateCellOp _ _ => true
  | .addRowOp => true
  | .deleteRowOp => true
  | .addColumnOp => true
  | .deleteColumnOp => true
  | .pasteOp _ => true
  | .cutOp => true
  | .clearOp confirmed => confirmed
  | .importOp _ => true
  | _ => false

/-! ## Concrete states used by the counterexamples -/

/-- An otherwise-default cell holding the given literal value. -/
def mkValueCell (v : String) : CellData :=
  { createEmptyCell with value := v }

/-- A grid in which the rectangle `A1:B2` is selected but only `A1`, `B1` and
`A2` are present (`B2` is an implicit empty cell), and the future paste
destination `E5` already holds content. -/
def c5State : SheetState :=
  { initialState with
    cells := [("A1", mkValueCell "a1"), ("B1", mkValueCell "b1"),
              ("A2", mkValueCell "a2"), ("E5", mkValueCell "stale")],
    selectedCells := ["A1", "B1", "A2", "B2"] }

/-- The grid after typing the self-referential formula `=SUM(A1:A1)` into
`A1` (the formula-bar edit stores the formula and clears the value). -/
def c1State : SheetState :=
  updateCell initialState "A1" ⟨some "", some "=SUM(A1:A1)", none⟩

/-- Reachable-state invariant used by the history and dimension claims:
positive grid bounds, a history index inside the history, and positive bounds
in every snapshot. -/
def StateOK (s : SheetState) : Prop :=
  1 ≤ s.rows ∧ 1 ≤ s.cols ∧ -1 ≤ s.historyIndex ∧
    s.historyIndex < (s.history.length : Int) ∧
    ∀ h ∈ s.history, 1 ≤ h.rows ∧ 1 ≤ h.cols

/-! ## Supporting lemmas: characters and digit strings -/

theorem char_toNat_ofNat (m : Nat) (h : m < 55296) : (Char.ofNat m).toNat = m := by
  simp only [Char.ofNat, Nat.isValidChar]
  rw [dif_pos (Or.inl h)]
  rfl

theorem beq_char_of_toNat_ne (c d : Char) (m : Nat) (hd : d.toNat = m)
    (h : c.toNat ≠ m) : (c == d) = false := by
  apply beq_eq_false_iff_ne.mpr
  rintro rfl
  exact h hd

theorem digitsVal_foldl (l : List Char) (a : Nat) :
    l.foldl (fun a c => a * 10 + (c.toNat - 48)) a =
      a * 10 ^ l.length + l.foldl (fun a c => a * 10 + (c.toNat - 48)) 0 := by
  induction l generalizing a with
  | nil => simp
  | cons c t ih =>
    simp only [List.foldl_cons, List.length_cons]
    rw [ih (a * 10 + (c.toNat - 48)), ih (0 * 10 + (c.toNat - 48))]
    ring

theorem natToDigitsCore_foldl (fuel : Nat) :
    ∀ (n : Nat) (acc : List Char), n ≤ fuel →
    (natToDigitsCore fuel n acc).foldl (fun a c => a * 10 + (c.toNat - 48)) 0 =
      n * 10 ^ acc.length + acc.foldl (fun a c => a * 10 + (c.toNat - 48)) 0 := by
  induction fuel with
  | zero =>
    intro n acc hf
    match n with
    | 0 => simp [natToDigitsCore]
  | succ f ih =>
    intro n acc hf
    match n with
    | 0 => simp [natToDigitsCore]
    | m + 1 =>
      rw [natToDigitsCore]
      have hq : (m + 1) / 10 ≤ f := by
        have := Nat.div_lt_self (Nat.succ_pos m) (show 1 < 10 by norm_num)
        omega
      rw [ih ((m + 1) / 10) _ hq]
      simp only [List.length_cons, List.foldl_cons]
      rw [digitsVal_foldl _ (0 * 10 + ((Char.ofNat (48 + (m + 1) % 10)).toNat - 48))]
      rw [char_toNat_ofNat (48 + (m + 1) % 10) (by omega)]
      have hsub : 48 + (m + 1) % 10 - 48 = (m + 1) % 10 := by omega
      rw [hsub]
      set q := (m + 1) / 10 with hq2
      set d := (m + 1) % 10 with hd
      have hdm : q * 10 + d = m + 1 := by omega
      rw [← hdm]
      ring

theorem digitsToNat_jsNatToString (n : Nat) : digitsToNat (jsNatToString n) = n := by
  by_cases h : n = 0
  · subst h; decide
  · unfold jsNatToString
    rw [if_neg h]
    have := natToDigitsCore_foldl n n [] (le_refl n)
    simpa [digitsToNat] using this

theorem mem_natToDigitsCore (fuel : Nat) :
    ∀ (n : Nat) (acc : List Char), ∀ c ∈ natToDigitsCore fuel n acc,
      c ∈ acc ∨ isDigitChar c = true := by
  induction fuel with
  | zero =>
    intro n acc c hc
    match n with
    | 0 => exact Or.inl (by simpa [natToDigitsCore] using hc)
    | m + 1 => exact Or.inl (by simpa [natToDigitsCore] using hc)
  | succ f ih =>
    intro n acc c hc
    match n with
    | 0 => exact Or.inl (by simpa [natToDigitsCore] using hc)
    | m + 1 =>
      rw [natToDigitsCore] at hc
      rcases ih ((m + 1) / 10) _ c hc with h | h
      · rcases List.mem_cons.mp h with h1 | h1
        · right
          subst h1
          simp only [isDigitChar, Bool.and_eq_true, decide_eq_true_eq]
          rw [char_toNat_ofNat _ (by omega)]
          have := Nat.mod_lt (m + 1) (y := 10) (by norm_num)
          omega
        · exact Or.inl h1
      · exact Or.inr h

theorem natToDigitsCore_ne_nil (fuel : Nat) :
    ∀ (n : Nat) (acc : List Char), n ≠ 0 → n ≤ fuel →
      natToDigitsCore fuel n acc ≠ [] := by
  induction fuel with
  | zero =>
    intro n acc h hf
    omega
  | succ f ih =>
    intro n acc h hf
    match n with
    | m + 1 =>
      rw [natToDigitsCore]
      by_cases hq : (m + 1) / 10 = 0
      · rw [hq]
        simp [natToDigitsCore]
      · refine ih ((m + 1) / 10) _ hq ?_
        have := Nat.div_lt_self (Nat.succ_pos m) (show 1 < 10 by norm_num)
        omega

theorem jsNatToString_digits (n : Nat) :
    ∀ c ∈ (jsNatToString n).data, isDigitChar c = true := by
  intro c hc
  by_cases h : n = 0
  · subst h
    have h0 : c ∈ ['0'] := hc
    have : c = '0' := by simpa using h0
    subst this
    decide
  · unfold jsNatToString at hc
    rw [if_neg h] at hc
    rcases mem_natToDigitsCore n n [] c hc with h1 | h1
    · simp at h1
    · exact h1

theorem jsNatToString_ne_empty (n : Nat) : (jsNatToString n).data ≠ [] := by
  by_cases h : n = 0
  · subst h; decide
  · unfold jsNatToString
    rw [if_neg h]
    exact natToDigitsCore_ne_nil n n [] h (le_refl n)

theorem digitChar_not_letter (c : Char) (h : isDigitChar c = true) :
    isAsciiLetter c = false := by
  simp only [isDigitChar, Bool.and_eq_true, decide_eq_true_eq] at h
  simp only [isAsciiLetter, Bool.or_eq_false_iff, Bool.and_eq_false_iff]
  constructor <;> [left; left] <;> simp only [decide_eq_false_iff_not] <;> omega

theorem digitChar_not_ws (c : Char) (h : isDigitChar c = true) :
    isJsWhitespace c = false := by
  simp only [isDigitChar, Bool.and_eq_true, decide_eq_true_eq] at h
  simp only [isJsWhitespace, Bool.or_eq_false_iff]
  refine ⟨⟨⟨?_, ?_⟩, ?_⟩, ?_⟩
  · exact beq_char_of_toNat_ne c ' ' 32 rfl (by omega)
  · exact beq_char_of_toNat_ne c '\t' 9 rfl (by omega)
  · exact beq_char_of_toNat_ne c '\n' 10 rfl (by omega)
  · exact beq_char_of_toNat_ne c '\r' 13 rfl (by omega)

theorem digitChar_not_colon (c : Char) (h : isDigitChar c = true) :
    (c == ':') = false := by
  simp only [isDigitChar, Bool.and_eq_true, decide_eq_true_eq] at h
  exact beq_char_of_toNat_ne c ':' 58 rfl (by omega)

theorem digitChar_not_dollar (c : Char) (h : isDigitChar c = true) :
    (c == '$') = false := by
  simp only [isDigitChar, Bool.and_eq_true, decide_eq_true_eq] at h
  exact beq_char_of_toNat_ne c '$' 36 rfl (by omega)

/-! ## Supporting lemmas: string primitives on known character classes -/

theorem mkData (l : List Char) : (String.mk l).data = l := rfl

theorem mk_ne_empty (l : List Char) (h : l ≠ []) : String.mk l ≠ "" := by
  intro hc; exact h (String.ext_iff.mp hc)

theorem dropWhile_eq_self_of_all (l : List Char) (p : Char → Bool)
    (h : ∀ c ∈ l, p c = false) : l.dropWhile p = l := by
  rw [List.dropWhile_eq_self_iff]
  intro hl
  simp only [Bool.not_eq_true]
  exact h _ (List.get_mem l 0 hl)

theorem takeWhile_eq_nil_of_head (c : Char) (t : List Char) (p : Char → Bool)
    (h : p c = false) : (c :: t).takeWhile p = [] := by
  simp [List.takeWhile_cons, h]

theorem jsTrim_eq_self (l : List Char) (h : ∀ c ∈ l, isJsWhitespace c = false) :
    jsTrim (String.mk l) = String.mk l := by
  unfold jsTrim
  rw [mkData, dropWhile_eq_self_of_all l _ h,
      dropWhile_eq_self_of_all l.reverse _ (fun c hc => h c (List.mem_reverse.mp hc)),
      List.reverse_reverse]

theorem upperLetter_not_ws (c : Char) (m : Nat) (hm : c.toNat = 65 + m) (hm2 : m ≤ 25) :
    isJsWhitespace c = false := by
  simp only [isJsWhitespace, Bool.or_eq_false_iff]
  refine ⟨⟨⟨?_, ?_⟩, ?_⟩, ?_⟩
  · exact beq_char_of_toNat_ne c ' ' 32 rfl (by omega)
  · exact beq_char_of_toNat_ne c '\t' 9 rfl (by omega)
  · exact beq_char_of_toNat_ne c '\n' 10 rfl (by omega)
  · exact beq_char_of_toNat_ne c '\r' 13 rfl (by omega)

theorem dollar_beq_digit (d : Char) (h : isDigitChar d = true) : ('$' == d) = false := by
  simp only [isDigitChar, Bool.and_eq_true, decide_eq_true_eq] at h
  exact beq_char_of_toNat_ne '$' d d.toNat rfl (show (36 : Nat) ≠ d.toNat by omega)

theorem fromCharCodeRef_not_ws (c r : Nat) (hc : c ≤ 25) :
    ∀ x ∈ (fromCharCodeRef c r).data, isJsWhitespace x = false := by
  intro x hx
  rcases List.mem_cons.mp hx with h1 | h1
  · subst h1
    exact upperLetter_not_ws _ c (char_toNat_ofNat _ (by omega)) hc
  · exact digitChar_not_ws _ (jsNatToString_digits r _ h1)

theorem parseReference_fromCharCodeRef (c r : Nat) (hc : c ≤ 25) :
    parseReference (fromCharCodeRef c r) =
      Except.ok ⟨c, r, false, false, fromCharCodeRef c r⟩ := by
  have hch : (Char.ofNat (65 + c)).toNat = 65 + c := char_toNat_ofNat _ (by omega)
  have hdig := jsNatToString_digits r
  have hne : fromCharCodeRef c r ≠ "" := mk_ne_empty _ (by simp)
  have htrim : jsTrim (fromCharCodeRef c r) = fromCharCodeRef c r :=
    jsTrim_eq_self _ (fromCharCodeRef_not_ws c r hc)
  have hnodollar : jsStartsWith (fromCharCodeRef c r) "$" = false := by
    show listLeads ['$'] _ = false
    simp only [fromCharCodeRef, mkData, listLeads, Bool.and_eq_false_iff]
    left
    exact beq_char_of_toNat_ne '$' _ (65 + c) hch (show (36 : Nat) ≠ 65 + c by omega)
  have hletter : isAsciiLetter (Char.ofNat (65 + c)) = true := by
    simp only [isAsciiLetter, hch, Bool.and_eq_true, Bool.or_eq_true, decide_eq_true_eq]
    left; omega
  have htake : ((fromCharCodeRef c r).data.takeWhile isAsciiLetter) = [Char.ofNat (65 + c)] := by
    simp only [fromCharCodeRef, mkData]
    rw [List.takeWhile_cons_of_pos hletter]
    cases hd : (jsNatToString r).data with
    | nil => rfl
    | cons d t =>
      rw [takeWhile_eq_nil_of_head]
      exact digitChar_not_letter d (hdig d (by rw [hd]; exact List.mem_cons_self d t))
  have hupper : jsCharToUpper (Char.ofNat (65 + c)) = Char.ofNat (65 + c) := by
    unfold jsCharToUpper
    rw [if_neg]
    simp only [hch, Bool.and_eq_true, decide_eq_true_eq, not_and]
    omega
  have hdrop : jsDrop (fromCharCodeRef c r) 1 = jsNatToString r := by
    simp only [jsDrop, fromCharCodeRef, mkData, List.drop_succ_cons, List.drop_zero]
  have hnodollar2 : jsStartsWith (jsNatToString r) "$" = false := by
    show listLeads ['$'] _ = false
    cases hd : (jsNatToString r).data with
    | nil => rfl
    | cons d t =>
      simp only [listLeads, Bool.and_eq_false_iff]
      left
      exact dollar_beq_digit d (hdig d (by rw [hd]; exact List.mem_cons_self d t))
  have hnonempty : (jsNatToString r = "") = False := by
    simp only [eq_iff_iff, iff_false]
    intro hx
    exact jsNatToString_ne_empty r (String.ext_iff.mp hx)
  have halldig : (jsNatToString r).data.all isDigitChar = true := List.all_eq_true.mpr hdig
  have hrow : digitsToNat (jsNatToString r) = r := digitsToNat_jsNatToString r
  have hcol : ([Char.ofNat (65 + c)].foldl (fun a ch => a * 26 + (ch.toNat - 65)) 0) = c := by
    simp only [List.foldl_cons, List.foldl_nil, hch]
    omega
  rw [parseReference, if_neg hne]
  simp only [htrim, hnodollar, if_neg, Bool.false_eq_true, ite_false]
  rw [htake]
  simp only [jsToUpper, mkData, List.map_cons, List.map_nil, hupper]
  have hlen : (String.mk [Char.ofNat (65 + c)]).length = 1 := rfl
  rw [hlen, hdrop]
  simp only [hnodollar2, Bool.false_eq_true, ite_false, hnonempty, halldig,
    Bool.not_true, Bool.or_false, decide_False, Bool.false_or, ite_false, hrow, hcol]
  rfl

/-! ## Supporting lemmas: JS `split` on colon-free corner texts -/

theorem jsSplitAux_no_sep (sep : Char) (l : List Char) :
    ∀ cur, (∀ c ∈ l, (c == sep) = false) →
      jsSplitAux sep l cur = [String.mk (cur.reverse ++ l)] := by
  induction l with
  | nil => intro cur _; simp [jsSplitAux]
  | cons c t ih =>
    intro cur h
    rw [jsSplitAux, if_neg (by simp [h c (List.mem_cons_self c t)])]
    rw [ih _ (fun x hx => h x (List.mem_cons_of_mem c hx))]
    simp

theorem jsSplitAux_sep_append (sep : Char) (l1 l2 : List Char) :
    ∀ cur, (∀ c ∈ l1, (c == sep) = false) →
      jsSplitAux sep (l1 ++ sep :: l2) cur =
        String.mk (cur.reverse ++ l1) :: jsSplitAux sep l2 [] := by
  induction l1 with
  | nil =>
    intro cur _
    simp only [List.nil_append]
    rw [jsSplitAux, if_pos (beq_self_eq_true sep)]
    simp
  | cons c t ih =>
    intro cur h
    simp only [List.cons_append]
    rw [jsSplitAux, if_neg (by simp [h c (List.mem_cons_self c t)])]
    rw [ih _ (fun x hx => h x (List.mem_cons_of_mem c hx))]
    simp

theorem jsSplit_two (l1 l2 : List Char)
    (h1 : ∀ c ∈ l1, (c == ':') = false) (h2 : ∀ c ∈ l2, (c == ':') = false) :
    jsSplit (String.mk (l1 ++ ':' :: l2)) ':' = [String.mk l1, String.mk l2] := by
  unfold jsSplit
  rw [mkData, jsSplitAux_sep_append ':' l1 l2 [] h1, jsSplitAux_no_sep ':' l2 [] h2]
  simp

theorem fromCharCodeRef_not_colon (c r : Nat) (hc : c ≤ 25) :
    ∀ x ∈ (fromCharCodeRef c r).data, (x == ':') = false := by
  intro x hx
  rcases List.mem_cons.mp hx with h1 | h1
  · subst h1
    exact beq_char_of_toNat_ne _ ':' 58 rfl
      (by rw [char_toNat_ofNat _ (by omega)]; omega)
  · exact digitChar_not_colon _ (jsNatToString_digits r _ h1)

/-- Claim C3, amended.  Range expansion is corner-order-SENSITIVE: for any
two single-letter corner references, `parseRange` enumerates from the start
corner up to the end corner with no min/max normalisation — when either
coordinate of the end corner is below the start corner the `range'` length
is zero and the expansion is empty (so `expand "B2:A1" ≠ expand "A1:B2"`),
while ascending corners yield the column-major rectangle, and the degenerate
`A1:A1` yields exactly `[A1]`. -/
theorem c3_range_corner_order (c1 r1 c2 r2 : Nat) (h1 : c1 ≤ 25) (h2 : c2 ≤ 25) :
    parseRange (fromCharCodeRef c1 r1 ++ ":" ++ fromCharCodeRef c2 r2) =
      (List.range' c1 (c2 + 1 - c1)).flatMap (fun col =>
        (List.range' r1 (r2 + 1 - r1)).map (fun row => fromCharCodeRef col row)) := by
  set d1 := (fromCharCodeRef c1 r1).data with hd1
  set d2 := (fromCharCodeRef c2 r2).data with hd2
  have hdata : (fromCharCodeRef c1 r1 ++ ":" ++ fromCharCodeRef c2 r2).data =
      d1 ++ ':' :: d2 := by
    show (d1 ++ [':']) ++ d2 = d1 ++ ':' :: d2
    simp
  have hnws1 := fromCharCodeRef_not_ws c1 r1 h1
  have hnws2 := fromCharCodeRef_not_ws c2 r2 h2
  have hws : ∀ x ∈ d1 ++ ':' :: d2, isJsWhitespace x = false := by
    intro x hx
    rcases List.mem_append.mp hx with h | h
    · exact hnws1 x h
    · rcases List.mem_cons.mp h with h | h
      · subst h; decide
      · exact hnws2 x h
  have hne : (fromCharCodeRef c1 r1 ++ ":" ++ fromCharCodeRef c2 r2) ≠ "" := by
    intro hcontra
    have := String.ext_iff.mp hcontra
    rw [hdata] at this
    simpa using congrArg List.length this
  have htrim : jsTrim (fromCharCodeRef c1 r1 ++ ":" ++ fromCharCodeRef c2 r2) =
      (fromCharCodeRef c1 r1 ++ ":" ++ fromCharCodeRef c2 r2) := by
    have := jsTrim_eq_self (d1 ++ ':' :: d2) hws
    rw [show String.mk (d1 ++ ':' :: d2) =
      fromCharCodeRef c1 r1 ++ ":" ++ fromCharCodeRef c2 r2 from String.ext_iff.mpr hdata.symm]
      at this
    exact this
  have hsplit : jsSplit (fromCharCodeRef c1 r1 ++ ":" ++ fromCharCodeRef c2 r2) ':' =
      [fromCharCodeRef c1 r1, fromCharCodeRef c2 r2] := by
    have := jsSplit_two d1 d2 (fromCharCodeRef_not_colon c1 r1 h1)
      (fromCharCodeRef_not_colon c2 r2 h2)
    rw [show String.mk (d1 ++ ':' :: d2) =
      fromCharCodeRef c1 r1 ++ ":" ++ fromCharCodeRef c2 r2 from String.ext_iff.mpr hdata.symm]
      at this
    rw [this]
  have htrim1 : jsTrim (fromCharCodeRef c1 r1) = fromCharCodeRef c1 r1 :=
    jsTrim_eq_self _ hnws1
  have htrim2 : jsTrim (fromCharCodeRef c2 r2) = fromCharCodeRef c2 r2 :=
    jsTrim_eq_self _ hnws2
  have hne2 : (fromCharCodeRef c2 r2 = "") = False := by
    simp only [eq_iff_iff, iff_false]
    exact mk_ne_empty _ (by simp)
  rw [parseRange]
  rw [if_neg (by simp only [htrim, Bool.or_eq_true, decide_eq_true_eq]; tauto)]
  norm_num only [hsplit, List.headD_cons, htrim1, htrim2, List.length_cons, List.length_nil,
    List.getD_eq_getElem?_getD, List.getElem?_cons_succ, List.getElem?_cons_zero,
    Option.getD_some, hne2, parseReference_fromCharCodeRef c1 r1 h1,
    parseReference_fromCharCodeRef c2 r2 h2]
  simp only [if_true, hne2, ite_false, parseReference_fromCharCodeRef c2 r2 h2]

/-! ## Supporting lemmas: cell maps and the paste loop -/

theorem find?_map_replace (t : CellMap) (k id : String) (v : CellData) (hne : id ≠ k) :
    (t.map (fun p => if p.1 == k then (k, v) else p)).find? (fun p => p.1 == id) =
      t.find? (fun p => p.1 == id) := by
  induction t with
  | nil => rfl
  | cons b t ih =>
    simp only [List.map_cons]
    by_cases hb : b.1 = k
    · rw [if_pos (by simp [hb])]
      have h1 : ((k, v).1 == id) = false := beq_eq_false_iff_ne.mpr (fun h => hne h.symm)
      have h2 : (b.1 == id) = false := beq_eq_false_iff_ne.mpr (by rw [hb]; exact fun h => hne h.symm)
      rw [List.find?_cons_of_neg _ (by simp [h1]), List.find?_cons_of_neg _ (by simp [h2])]
      exact ih
    · rw [if_neg (by simp [hb])]
      by_cases hid : b.1 = id
      · rw [List.find?_cons_of_pos _ (by simp [hid]), List.find?_cons_of_pos _ (by simp [hid])]
      · rw [List.find?_cons_of_neg _ (by simp [hid]), List.find?_cons_of_neg _ (by simp [hid])]
        exact ih

theorem find?_map_replace_self (t : CellMap) (k : String) (v : CellData)
    (h : t.any (fun p => p.1 == k) = true) :
    (t.map (fun p => if p.1 == k then (k, v) else p)).find? (fun p => p.1 == k) =
      some (k, v) := by
  induction t with
  | nil => simp at h
  | cons b t ih =>
    simp only [List.map_cons]
    by_cases hb : b.1 = k
    · rw [if_pos (by simp [hb])]
      exact List.find?_cons_of_pos _ (by simp)
    · rw [if_neg (by simp [hb])]
      rw [List.find?_cons_of_neg _ (by simp [hb])]
      apply ih
      simp only [List.any_cons, Bool.or_eq_true] at h
      rcases h with h | h
      · exact absurd (by simpa using h) hb
      · exact h

theorem lookupCell_setCell (m : CellMap) (k : String) (v : CellData) (id : String) :
    lookupCell (setCell m k v) id = if id = k then some v else lookupCell m id := by
  unfold setCell lookupCell
  by_cases hany : m.any (fun p => p.1 == k)
  · rw [if_pos hany]
    by_cases hid : id = k
    · subst hid
      rw [if_pos rfl, find?_map_replace_self m id v hany]
      rfl
    · rw [if_neg hid, find?_map_replace m k id v hid]
  · rw [if_neg hany]
    rw [List.find?_append]
    by_cases hid : id = k
    · subst hid
      have hnone : m.find? (fun p => p.1 == id) = none := by
        rw [List.find?_eq_none]
        exact fun p hp => List.any_eq_false.mp (Bool.eq_false_iff.mpr hany) p hp
      rw [hnone, if_pos rfl]
      simp [List.find?]
    · have hkv : ((k, v).1 == id) = false := beq_eq_false_iff_ne.mpr (fun h => hid h.symm)
      rw [if_neg hid]
      simp [List.find?, hkv]

theorem paste_fold_untouched (cols rows : Nat) (topLeft target : String)
    (entries : CellMap) (id : String)
    (h : ∀ e ∈ entries, pasteDest cols rows topLeft target e.1 ≠ some id) :
    ∀ acc, lookupCell (entries.foldl (pasteStep cols rows topLeft target) acc) id =
      lookupCell acc id := by
  induction entries with
  | nil => intro acc; rfl
  | cons e t ih =>
    intro acc
    rw [List.foldl_cons, ih (fun x hx => h x (List.mem_cons_of_mem e hx))]
    unfold pasteStep
    cases hdest : pasteDest cols rows topLeft target e.1 with
    | none => rfl
    | some d =>
      rw [lookupCell_setCell]
      rw [if_neg (fun hid => h e (List.mem_cons_self e t) (by rw [hdest, hid]))]

theorem paste_fold_hit (cols rows : Nat) (topLeft target : String)
    (entries : CellMap) (e : String × CellData) (d : String)
    (hnodup : (entries.map Prod.fst).Nodup)
    (he : e ∈ entries)
    (hd : pasteDest cols rows topLeft target e.1 = some d)
    (hunique : ∀ e2 ∈ entries, e2.1 ≠ e.1 →
      pasteDest cols rows topLeft target e2.1 ≠ some d) :
    ∀ acc, lookupCell (entries.foldl (pasteStep cols rows topLeft target) acc) d =
      some e.2 := by
  induction entries with
  | nil => cases he
  | cons b t ih =>
    intro acc
    rw [List.foldl_cons]
    have hnodup2 : (t.map Prod.fst).Nodup := by
      simpa using List.Nodup.of_cons (by simpa using hnodup)
    rcases List.mem_cons.mp he with hb | hb
    · subst hb
      have hkeys : ∀ x ∈ t, x.1 ≠ e.1 := by
        intro x hx hcontra
        have : e.1 ∉ t.map Prod.fst := by
          simp only [List.map_cons, List.nodup_cons] at hnodup
          exact hnodup.1
        exact this (hcontra ▸ List.mem_map_of_mem Prod.fst hx)
      rw [paste_fold_untouched cols rows topLeft target t d
        (fun x hx => hunique x (List.mem_cons_of_mem e hx) (hkeys x hx))]
      unfold pasteStep
      rw [hd, lookupCell_setCell, if_pos rfl]
    · have hbkey : b.1 ≠ e.1 := by
        intro hcontra
        simp only [List.map_cons, List.nodup_cons] at hnodup
        exact hnodup.1 (hcontra ▸ List.mem_map_of_mem Prod.fst hb)
      exact ih hnodup2 hb
        (fun e2 he2 => hunique e2 (List.mem_cons_of_mem b he2)) _

/-! ## Supporting lemmas: history management -/

/-- Every mutating operation leaves exactly the history produced by its
leading `saveState()` call. -/
theorem mutating_history (s : SheetState) (o : Op) (h : isMutating o = true) :
    (applyOp s o).history = (saveState s).history ∧
      (applyOp s o).historyIndex = (saveState s).historyIndex := by
  cases o with
  | updateCellOp id p => exact ⟨rfl, rfl⟩
  | addRowOp => exact ⟨rfl, rfl⟩
  | deleteRowOp => exact ⟨rfl, rfl⟩
  | addColumnOp => exact ⟨rfl, rfl⟩
  | deleteColumnOp => exact ⟨rfl, rfl⟩
  | pasteOp target =>
    show (pasteCells s target).history = _ ∧ (pasteCells s target).historyIndex = _
    unfold pasteCells
    dsimp only []
    cases hclip : (saveState s).clipboard with
    | none => simp [hclip]
    | some clip => simp [hclip]
  | cutOp =>
    show (cutSelection s).history = _ ∧ (cutSelection s).historyIndex = _
    unfold cutSelection
    dsimp only []
    by_cases hsel : (saveState s).selectedCells.length = 0
    · rw [if_pos hsel]; exact ⟨rfl, rfl⟩
    · rw [if_neg hsel]; exact ⟨rfl, rfl⟩
  | clearOp confirmed =>
    simp only [isMutating] at h
    subst h
    show (clearSpreadsheet s true).history = _ ∧ (clearSpreadsheet s true).historyIndex = _
    unfold clearSpreadsheet
    rw [if_pos rfl]
    dsimp only []
    exact ⟨rfl, rfl⟩
  | importOp content => exact ⟨rfl, rfl⟩
  | undoOp => simp [isMutating] at h
  | redoOp => simp [isMutating] at h
  | setSelectedCellOp id => simp [isMutating] at h
  | setSelectedCellsOp ids => simp [isMutating] at h
  | startDragOp id => simp [isMutating] at h
  | handleDragOp id => simp [isMutating] at h
  | endDragOp => simp [isMutating] at h
  | copyOp => simp [isMutating] at h
  | recalcOp id => simp [isMutating] at h

/-- `saveState` always points the index at the last history entry. -/
theorem saveState_historyIndex (s : SheetState) :
    (saveState s).historyIndex = ((saveState s).history.length : Int) - 1 := rfl

/-- One `saveState` from a state whose index sits at the end of a history of
length `min k 50` yields a history of length `min (k+1) 50`, index at the end. -/
theorem saveState_history_shape (s : SheetState) (k : Nat)
    (hlen : s.history.length = min k 50)
    (hidx : s.historyIndex = (min k 50 : Int) - 1) :
    (saveState s).history.length = min (k + 1) 50 ∧
      (saveState s).historyIndex = (min (k + 1) 50 : Int) - 1 := by
  have hcond : ¬ (s.historyIndex < (s.history.length : Int) - 1) := by
    rw [hidx, hlen]
    push_cast
    omega
  have hshape : (saveState s).history.length = min (k + 1) 50 := by
    unfold saveState
    rw [if_neg hcond]
    dsimp only []
    by_cases hgt : (s.history ++ [(⟨s.cells, s.rows, s.cols⟩ : HistoryState)]).length > MAX_HISTORY
    · rw [if_pos hgt]
      simp only [List.length_drop, List.length_append, List.length_cons, List.length_nil, hlen]
      simp only [List.length_append, List.length_cons, List.length_nil, hlen] at hgt
      unfold MAX_HISTORY at hgt
      omega
    · rw [if_neg hgt]
      simp only [List.length_append, List.length_cons, List.length_nil, hlen]
      simp only [List.length_append, List.length_cons, List.length_nil, hlen] at hgt
      unfold MAX_HISTORY at hgt
      omega
  refine ⟨hshape, ?_⟩
  rw [saveState_historyIndex, hshape]
  push_cast
  omega

/-- A history-top invariant: after `k` mutating operations from the initial
state, the history has `min k 50` entries and the index sits at the end. -/
def HistTop (s : SheetState) (k : Nat) : Prop :=
  s.history.length = min k 50 ∧ s.historyIndex = (min k 50 : Int) - 1

theorem histTop_step (s : SheetState) (o : Op) (k : Nat) (hm : isMutating o = true)
    (h : HistTop s k) : HistTop (applyOp s o) (k + 1) := by
  obtain ⟨hlen, hidx⟩ := h
  obtain ⟨hh, hi⟩ := mutating_history s o hm
  obtain ⟨h1, h2⟩ := saveState_history_shape s k hlen hidx
  refine ⟨by rw [hh, h1], ?_⟩
  rw [hi, h2]
  push_cast
  omega

theorem applyOps_histTop (ops : List Op) :
    ∀ (s : SheetState) (k : Nat), (∀ o ∈ ops, isMutating o = true) → HistTop s k →
      HistTop (applyOps ops s) (k + ops.length) := by
  induction ops with
  | nil => intro s k _ h; simpa [applyOps] using h
  | cons o t ih =>
    intro s k hm h
    have step := histTop_step s o k (hm o (List.mem_cons_self o t)) h
    have := ih (applyOp s o) (k + 1) (fun x hx => hm x (List.mem_cons_of_mem o hx)) step
    show HistTop (applyOps t (applyOp s o)) _
    rw [show k + (o :: t).length = k + 1 + t.length by simp; omega]
    exact this

theorem undo_of_nonpos (s : SheetState) (h : s.historyIndex ≤ 0) : undo s = s := by
  unfold undo
  rw [if_pos h]

theorem undo_of_pos (s : SheetState) (h : 0 < s.historyIndex) :
    (undo s).historyIndex = s.historyIndex - 1 ∧ (undo s).history = s.history := by
  unfold undo
  rw [if_neg (by omega)]
  exact ⟨rfl, rfl⟩

theorem undo_iter_index (s : SheetState) (n : Nat)
    (h : s.historyIndex = (n : Int)) :
    ∀ k : Nat, k ≤ n →
      (undo^[k] s).historyIndex = ((n - k : Nat) : Int) ∧
        (undo^[k] s).history = s.history := by
  intro k
  induction k with
  | zero =>
    intro _
    simpa using h
  | succ j ih =>
    intro hk
    obtain ⟨hidx, hhist⟩ := ih (by omega)
    rw [Function.iterate_succ_apply']
    have hpos : 0 < (undo^[j] s).historyIndex := by
      rw [hidx]
      have : 0 < n - j := by omega
      exact_mod_cast this
    obtain ⟨h1, h2⟩ := undo_of_pos _ hpos
    refine ⟨?_, by rw [h2, hhist]⟩
    rw [h1, hidx]
    omega

theorem redo_of_top (s : SheetState)
    (h : s.historyIndex ≥ (s.history.length : Int) - 1) : redo s = s := by
  unfold redo
  rw [if_pos h]

theorem redo_after_mutating (t : SheetState) (e : Op) (he : isMutating e = true) :
    redo (applyOp t e) = applyOp t e := by
  obtain ⟨hh, hi⟩ := mutating_history t e he
  apply redo_of_top
  rw [hh, hi, saveState_historyIndex]

/-! ## Supporting lemmas: the reachable-state invariant -/

theorem stateOK_initial : StateOK initialState := by
  refine ⟨by norm_num [initialState, DEFAULT_ROWS], by norm_num [initialState, DEFAULT_COLS],
    by norm_num [initialState], by norm_num [initialState], ?_⟩
  intro h hh
  simp [initialState] at hh

theorem saveState_history_mem (s : SheetState) :
    ∀ x ∈ (saveState s).history, x ∈ s.history ∨ x = ⟨s.cells, s.rows, s.cols⟩ := by
  unfold saveState
  dsimp only []
  intro x hx
  have hx2 : x ∈ (if s.historyIndex < (s.history.length : Int) - 1 then
      s.history.take (s.historyIndex + 1).toNat else s.history) ++
      [(⟨s.cells, s.rows, s.cols⟩ : HistoryState)] := by
    by_cases hcap : ((if s.historyIndex < (s.history.length : Int) - 1 then
        s.history.take (s.historyIndex + 1).toNat else s.history) ++
        [(⟨s.cells, s.rows, s.cols⟩ : HistoryState)]).length > MAX_HISTORY
    · rw [if_pos hcap] at hx
      exact List.drop_subset 1 _ hx
    · rw [if_neg hcap] at hx
      exact hx
  rcases List.mem_append.mp hx2 with h | h
  · by_cases htr : s.historyIndex < (s.history.length : Int) - 1
    · rw [if_pos htr] at h
      exact Or.inl (List.take_subset _ _ h)
    · rw [if_neg htr] at h
      exact Or.inl h
  · right
    simpa using h

theorem saveState_length_pos (s : SheetState) : 1 ≤ (saveState s).history.length := by
  unfold saveState
  dsimp only []
  by_cases hcap : ((if s.historyIndex < (s.history.length : Int) - 1 then
      s.history.take (s.historyIndex + 1).toNat else s.history) ++
      [(⟨s.cells, s.rows, s.cols⟩ : HistoryState)]).length > MAX_HISTORY
  · rw [if_pos hcap]
    simp only [List.length_drop]
    simp only [List.length_append, List.length_cons, List.length_nil] at hcap ⊢
    unfold MAX_HISTORY at hcap
    omega
  · rw [if_neg hcap]
    simp

theorem stateOK_saveState (s : SheetState) (h : StateOK s) : StateOK (saveState s) := by
  obtain ⟨hr, hc, hi1, hi2, hh⟩ := h
  have hlen := saveState_length_pos s
  refine ⟨hr, hc, ?_, ?_, ?_⟩
  · rw [saveState_historyIndex]
    omega
  · rw [saveState_historyIndex]
    omega
  · intro x hx
    rcases saveState_history_mem s x hx with hmem | hmem
    · exact hh x hmem
    · subst hmem
      exact ⟨hr, hc⟩

theorem stateOK_undo (s : SheetState) (h : StateOK s) : StateOK (undo s) := by
  obtain ⟨hr, hc, hi1, hi2, hh⟩ := h
  by_cases hidx : s.historyIndex ≤ 0
  · rw [undo_of_nonpos s hidx]
    exact ⟨hr, hc, hi1, hi2, hh⟩
  · push_neg at hidx
    unfold undo
    rw [if_neg (by omega)]
    dsimp only []
    have hbound : (s.historyIndex - 1).toNat < s.history.length := by omega
    have hget : s.history.getD (s.historyIndex - 1).toNat ⟨[], 0, 0⟩ ∈ s.history := by
      rw [List.getD_eq_getElem?_getD, List.getElem?_eq_getElem hbound, Option.getD_some]
      exact List.getElem_mem hbound
    refine ⟨(hh _ hget).1, (hh _ hget).2, ?_, ?_, hh⟩
    · show -1 ≤ s.historyIndex - 1
      omega
    · show s.historyIndex - 1 < (s.history.length : Int)
      omega

theorem stateOK_redo (s : SheetState) (h : StateOK s) : StateOK (redo s) := by
  obtain ⟨hr, hc, hi1, hi2, hh⟩ := h
  by_cases hidx : s.historyIndex ≥ (s.history.length : Int) - 1
  · rw [redo_of_top s hidx]
    exact ⟨hr, hc, hi1, hi2, hh⟩
  · push_neg at hidx
    unfold redo
    rw [if_neg (by omega)]
    dsimp only []
    have hbound : (s.historyIndex + 1).toNat < s.history.length := by omega
    have hget : s.history.getD (s.historyIndex + 1).toNat ⟨[], 0, 0⟩ ∈ s.history := by
      rw [List.getD_eq_getElem?_getD, List.getElem?_eq_getElem hbound, Option.getD_some]
      exact List.getElem_mem hbound
    refine ⟨(hh _ hget).1, (hh _ hget).2, ?_, ?_, hh⟩
    · show -1 ≤ s.historyIndex + 1
      omega
    · show s.historyIndex + 1 < (s.history.length : Int)
      omega

theorem stateOK_applyOp (s : SheetState) (o : Op) (h : StateOK s) :
    StateOK (applyOp s o) := by
  cases o with
  | updateCellOp id p => exact stateOK_saveState s h
  | addRowOp =>
    obtain ⟨hr, hc, h1, h2, hh⟩ := stateOK_saveState s h
    refine ⟨?_, hc, h1, h2, hh⟩
    show 1 ≤ (saveState s).rows + 1
    omega
  | deleteRowOp =>
    obtain ⟨hr, hc, h1, h2, hh⟩ := stateOK_saveState s h
    exact ⟨le_max_left 1 _, hc, h1, h2, hh⟩
  | addColumnOp =>
    obtain ⟨hr, hc, h1, h2, hh⟩ := stateOK_saveState s h
    refine ⟨hr, ?_, h1, h2, hh⟩
    show 1 ≤ (saveState s).cols + 1
    omega
  | deleteColumnOp =>
    obtain ⟨hr, hc, h1, h2, hh⟩ := stateOK_saveState s h
    exact ⟨hr, le_max_left 1 _, h1, h2, hh⟩
  | undoOp => exact stateOK_undo s h
  | redoOp => exact stateOK_redo s h
  | setSelectedCellOp id => exact h
  | setSelectedCellsOp ids => exact h
  | startDragOp id => exact h
  | handleDragOp id =>
    show StateOK (handleDrag s id)
    unfold handleDrag
    by_cases hguard : (!s.isDragging || s.dragStart = none) = true
    · rw [if_pos hguard]
      exact h
    · rw [if_neg hguard]
      exact h
  | endDragOp => exact h
  | copyOp =>
    show StateOK (copySelectedCells s)
    unfold copySelectedCells
    by_cases hsel : s.selectedCells.length = 0
    · rw [if_pos hsel]
      exact h
    · rw [if_neg hsel]
      exact h
  | pasteOp target =>
    have h2 := stateOK_saveState s h
    show StateOK (pasteCells s target)
    unfold pasteCells
    dsimp only []
    cases hclip : (saveState s).clipboard with
    | none => exact h2
    | some clip => exact h2
  | cutOp =>
    have h2 := stateOK_saveState s h
    show StateOK (cutSelection s)
    unfold cutSelection
    dsimp only []
    by_cases hsel : (saveState s).selectedCells.length = 0
    · rw [if_pos hsel]
      exact h2
    · rw [if_neg hsel]
      exact h2
  | clearOp confirmed =>
    show StateOK (clearSpreadsheet s confirmed)
    unfold clearSpreadsheet
    by_cases hcf : confirmed = true
    · rw [if_pos hcf]
      dsimp only []
      exact stateOK_saveState s h
    · rw [if_neg hcf]
      exact h
  | importOp content =>
    obtain ⟨hr, hc, h1, h2i, hh⟩ := stateOK_saveState s h
    exact ⟨le_trans hr (le_max_left _ _), le_trans hc (le_max_left _ _), h1, h2i, hh⟩
  | recalcOp id =>
    show StateOK (recalcCell s id)
    unfold recalcCell
    dsimp only []
    by_cases hf : ((lookupCell s.cells id).getD createEmptyCell).formula ≠ ""
    · rw [if_pos hf]
      by_cases hv : evaluateFormula ((lookupCell s.cells id).getD createEmptyCell).formula
          (getCellValueFrom s.cells) ≠ ((lookupCell s.cells id).getD createEmptyCell).value
      · rw [if_pos hv]
        exact stateOK_saveState s h
      · rw [if_neg hv]
        exact h
    · rw [if_neg hf]
      exact h

theorem stateOK_applyOps (ops : List Op) :
    ∀ s : SheetState, StateOK s → StateOK (applyOps ops s) := by
  induction ops with
  | nil => intro s h; exact h
  | cons o t ih =>
    intro s h
    exact ih (applyOp s o) (stateOK_applyOp s o h)

/-! ## Claim theorems -/

/-- Claim C1, counterexample.  The cell `A1` holds the self-referential
formula `=SUM(A1:A1)`; one run of the recalculation effect displays `"0"`
(the numeric fixpoint of summing the cell's own coerced value), not the
`#CIRCULAR` token the claim requires — no circular-error token exists in the
code. -/
theorem c1_counterexample :
    (lookupCell (recalcCell c1State "A1").cells "A1").map (·.value) = some "0" ∧
      some "0" ≠ some ("#CIRCULAR" : String) := by decide

/-- Claim C1, amended.  The recalculation of the self-referential
`=SUM(A1:A1)` cell terminates: a single effect run reaches a fixpoint (a
second run leaves the state unchanged), and the displayed value is the
numeric `"0"`, with no `#CIRCULAR` token and no exclusion of the cell. -/
theorem c1_self_reference_fixpoint :
    recalcCell (recalcCell c1State "A1") "A1" = recalcCell c1State "A1" ∧
      (lookupCell (recalcCell c1State "A1").cells "A1").map (·.value) = some "0" := by decide

/-- Claim C2.  The encode/decode round trip fails at the first multi-letter
column: `indexToColumnLetter 26 = "AA"`, but `parseReference "AA1"` computes
the column index as `0·26+0 = 0` (its accumulation lacks the `+1` bias that
the inverse `columnLetterToIndex` uses), not `26`. -/
theorem c2_roundtrip_failing :
    indexToColumnLetter 26 = "AA" ∧
      (parseReference (indexToColumnLetter 26 ++ jsNatToString 1)).toOption.map
        (fun pr => pr.colIndex) = some 0 ∧ (0 : Nat) ≠ 26 := by decide

/-- Claim C3, counterexample.  Corner order is not insensitive:
`expand "B2:A1"` is empty while `expand "A1:B2"` is the full rectangle; the
degenerate `A1:A1` does yield the single address. -/
theorem c3_counterexample :
    parseRange "B2:A1" = ([] : List String) ∧
      parseRange "A1:B2" = ["A1", "A2", "B1", "B2"] ∧
      parseRange "A1:A1" = ["A1"] ∧
      ([] : List String) ≠ ["A1", "A2", "B1", "B2"] := by decide

theorem c3_range_corner_order_witness :
    parseRange (fromCharCodeRef 0 1 ++ ":" ++ fromCharCodeRef 1 2) =
      (List.range' 0 (1 + 1 - 0)).flatMap (fun col =>
        (List.range' 1 (2 + 1 - 1)).map (fun row => fromCharCodeRef col row)) :=
  c3_range_corner_order 0 1 1 2 (by decide) (by decide)

set_option maxRecDepth 400000 in
/-- Claim C4, counterexample.  After 51 mutating edits the 49th undo is still
effective but the 50th is already a no-op, so undo cannot be applied exactly
`MAX_HISTORY = 50` times as claimed (the earliest stored snapshot is never
restorable because `undo` refuses to move below index 0). -/
theorem c4_counterexample :
    undo^[50] (applyOps (List.replicate 51 Op.addRowOp) initialState) =
      undo^[49] (applyOps (List.replicate 51 Op.addRowOp) initialState) ∧
    undo^[49] (applyOps (List.replicate 51 Op.addRowOp) initialState) ≠
      undo^[48] (applyOps (List.replicate 51 Op.addRowOp) initialState) := by decide

/-- Claim C4, amended.  After at least `MAX_HISTORY = 50` mutating edits from
the initial state, `undo` can be applied exactly `MAX_HISTORY − 1 = 49` times
before becoming a no-op (the first 49 applications each change the state and
the 50th leaves it unchanged); and after any mutating edit every redo is a
no-op (the edit's `saveState` truncates the redo branch and re-points the
index at the last entry). -/
theorem c4_history_bound (ops : List Op) (hm : ∀ o ∈ ops, isMutating o = true)
    (hn : 50 ≤ ops.length) :
    (∀ k : Nat, k < 49 →
      undo^[k + 1] (applyOps ops initialState) ≠ undo^[k] (applyOps ops initialState)) ∧
    undo^[50] (applyOps ops initialState) = undo^[49] (applyOps ops initialState) ∧
    (∀ (t : SheetState) (e : Op), isMutating e = true → redo (applyOp t e) = applyOp t e) := by
  have hinit : HistTop initialState 0 := ⟨by norm_num [initialState], by norm_num [initialState]⟩
  obtain ⟨hlen, hidx⟩ := applyOps_histTop ops initialState 0 hm hinit
  have hidx49 : (applyOps ops initialState).historyIndex = ((49 : Nat) : Int) := by
    rw [hidx]
    push_cast
    omega
  refine ⟨?_, ?_, fun t e he => redo_after_mutating t e he⟩
  · intro k hk heq
    have h1 := undo_iter_index _ 49 hidx49 (k + 1) (by omega)
    have h2 := undo_iter_index _ 49 hidx49 k (by omega)
    have hcast : ((49 - (k + 1) : Nat) : Int) = ((49 - k : Nat) : Int) := by
      rw [← h1.1, ← h2.1, heq]
    have : (49 - (k + 1) : Nat) = (49 - k : Nat) := by exact_mod_cast hcast
    omega
  · rw [Function.iterate_succ_apply']
    apply undo_of_nonpos
    rw [(undo_iter_index _ 49 hidx49 49 (by omega)).1]
    norm_num

set_option maxRecDepth 400000 in
theorem c4_history_bound_witness :
    undo^[50] (applyOps (List.replicate 50 Op.addRowOp) initialState) =
      undo^[49] (applyOps (List.replicate 50 Op.addRowOp) initialState) :=
  (c4_history_bound (List.replicate 50 Op.addRowOp)
    (fun o ho => by rw [List.eq_of_mem_replicate ho]; rfl) (by simp)).2.1

/-- Claim C5, counterexample.  With `A1:B2` selected but `B2` absent from the
grid (an implicit empty cell) and stale content at `E5`, copying `A1:B2` and
pasting at `D4` copies the three present cells to `D4`, `E4`, `D5` but leaves
`E5` holding its old value — the destination rectangle `D4:E5` is NOT
identical to the source, because `copySelectedCells` never snapshots absent
cells. -/
theorem c5_counterexample :
    lookupCell (pasteCells (copySelectedCells c5State) "D4").cells "D4" =
      some (mkValueCell "a1") ∧
    lookupCell (pasteCells (copySelectedCells c5State) "D4").cells "E4" =
      some (mkValueCell "b1") ∧
    lookupCell (pasteCells (copySelectedCells c5State) "D4").cells "D5" =
      some (mkValueCell "a2") ∧
    lookupCell (pasteCells (copySelectedCells c5State) "D4").cells "E5" =
      some (mkValueCell "stale") ∧
    mkValueCell "stale" ≠ createEmptyCell := by decide

/-- `pasteCells` on a state with a clipboard is exactly a `saveState`
followed by the paste fold over the snapshot. -/
theorem pasteCells_eq (s : SheetState) (target : String) (clip : ClipboardData)
    (hclip : s.clipboard = some clip) :
    pasteCells s target =
      { saveState s with
          cells := clip.cells.foldl (pasteStep s.cols s.rows clip.topLeft target) s.cells } := by
  unfold pasteCells
  dsimp only []
  have h2 : (saveState s).clipboard = some clip := hclip
  rw [h2]
  rfl

/-- Claim C5, amended.  Paste writes each snapshotted cell at
source-address-plus-offset: the grid is never resized, any cell id that is
not an in-bounds destination of some snapshotted cell keeps its prior
content (out-of-bounds destinations are silently skipped, and nothing
outside the destination set is mutated), and each snapshotted cell whose
destination is in bounds and not overwritten by another snapshot entry ends
up at that destination with its value/formula/style.  (The stronger claim —
that the whole destination rectangle becomes identical to the source
rectangle — fails when a source cell is absent; see the counterexample.) -/
theorem c5_paste_offset_semantics (s : SheetState) (target : String) (clip : ClipboardData)
    (hclip : s.clipboard = some clip)
    (hnodup : (clip.cells.map Prod.fst).Nodup) :
    ((pasteCells s target).rows = s.rows ∧ (pasteCells s target).cols = s.cols) ∧
    (∀ id : String,
      (∀ e ∈ clip.cells, pasteDest s.cols s.rows clip.topLeft target e.1 ≠ some id) →
      lookupCell (pasteCells s target).cells id = lookupCell s.cells id) ∧
    (∀ e ∈ clip.cells, ∀ d : String,
      pasteDest s.cols s.rows clip.topLeft target e.1 = some d →
      (∀ e2 ∈ clip.cells, e2.1 ≠ e.1 →
        pasteDest s.cols s.rows clip.topLeft target e2.1 ≠ some d) →
      lookupCell (pasteCells s target).cells d = some e.2) := by
  rw [pasteCells_eq s target clip hclip]
  refine ⟨⟨rfl, rfl⟩, ?_, ?_⟩
  · intro id h
    exact paste_fold_untouched s.cols s.rows clip.topLeft target clip.cells id h s.cells
  · intro e he d hd hunique
    exact paste_fold_hit s.cols s.rows clip.topLeft target clip.cells e d hnodup he hd
      hunique s.cells

theorem c5_paste_offset_semantics_witness :
    lookupCell (pasteCells (copySelectedCells c5State) "D4").cells "Z9" =
      lookupCell (copySelectedCells c5State).cells "Z9" :=
  ((c5_paste_offset_semantics (copySelectedCells c5State) "D4"
      ⟨[("A1", mkValueCell "a1"), ("B1", mkValueCell "b1"), ("A2", mkValueCell "a2")],
        "A1", "B2"⟩ (by decide) (by decide)).2.1) "Z9" (by decide)

/-- Claim C6, counterexample.  AVERAGE over a range with no numeric-coercible
operand evaluates to the string `"NaN"` (the JS `0/0` result), not to a
`#DIV0` token — no such token exists in the code. -/
theorem c6_counterexample :
    evaluateFormula "=AVERAGE(A1:A1)" (fun _ => "x") = "NaN" ∧
      evaluateFormula "=AVERAGE(A1:A1)" (fun _ => "x") ≠ "#DIV0" := by decide

/-- Claim C6, amended.  For every range text and cell-value lookup whose
numeric-coercible operand set is empty, the AVERAGE branch of
`evaluateFormula` returns the NaN-style string `"NaN"` (JS `0/0`), not an
explicit division-by-zero token. -/
theorem c6_average_empty_nan (r : String) (g : String → String)
    (h : ∀ ref ∈ parseRange r, jsToNumber (g ref) = JSNum.nan) :
    averageBranch r g = "NaN" := by
  unfold averageBranch
  have hfilter : ((parseRange r).map g).filter isNumericCoercible = [] := by
    rw [List.filter_eq_nil_iff]
    intro v hv
    rcases List.mem_map.mp hv with ⟨ref, href, rfl⟩
    simp [isNumericCoercible, h ref href]
  rw [hfilter]
  rfl

theorem c6_average_empty_nan_witness :
    (∀ ref ∈ parseRange "A1:A1", jsToNumber ((fun _ => "x") ref) = JSNum.nan) ∧
      averageBranch "A1:A1" (fun _ => "x") = "NaN" :=
  ⟨by decide, c6_average_empty_nan "A1:A1" (fun _ => "x") (by decide)⟩

/-- Claim C7, counterexample.  A recognized function with a malformed
argument list does not return the formula text unchanged: FIND_AND_REPLACE
with one parameter returns an explicit `#ERROR:` string. -/
theorem c7_counterexample :
    evaluateFormula "=FIND_AND_REPLACE(A1:A2)" (fun _ => "") =
      "#ERROR: Expected 3 parameters (range, find_text, replace_text)" ∧
    evaluateFormula "=FIND_AND_REPLACE(A1:A2)" (fun _ => "") ≠
      "=FIND_AND_REPLACE(A1:A2)" := by decide

/-- Claim C7, amended.  A formula whose uppercase head matches none of the
ten recognized function prefixes is returned unchanged (literal display);
but a recognized FIND_AND_REPLACE with the wrong parameter count surfaces an
`#ERROR:` string instead (see the counterexample), so the "malformed
argument list" half of the claim fails. -/
theorem c7_unknown_function_identity (formula : String) (g : String → String)
    (h0 : jsStartsWith formula "=" = true)
    (h1 : jsStartsWith (jsToUpper (jsDrop formula 1)) "SUM(" = false)
    (h2 : jsStartsWith (jsToUpper (jsDrop formula 1)) "AVERAGE(" = false)
    (h3 : jsStartsWith (jsToUpper (jsDrop formula 1)) "MAX(" = false)
    (h4 : jsStartsWith (jsToUpper (jsDrop formula 1)) "MIN(" = false)
    (h5 : jsStartsWith (jsToUpper (jsDrop formula 1)) "COUNT(" = false)
    (h6 : jsStartsWith (jsToUpper (jsDrop formula 1)) "TRIM(" = false)
    (h7 : jsStartsWith (jsToUpper (jsDrop formula 1)) "UPPER(" = false)
    (h8 : jsStartsWith (jsToUpper (jsDrop formula 1)) "LOWER(" = false)
    (h9 : jsStartsWith (jsToUpper (jsDrop formula 1)) "REMOVE_DUPLICATES(" = false)
    (h10 : jsStartsWith (jsToUpper (jsDrop formula 1)) "FIND_AND_REPLACE(" = false) :
    evaluateFormula formula g = formula := by
  unfold evaluateFormula
  simp [h0, h1, h2, h3, h4, h5, h6, h7, h8, h9, h10]

theorem c7_unknown_function_identity_witness :
    evaluateFormula "=FOO(A1)" (fun _ => "z") = "=FOO(A1)" :=
  c7_unknown_function_identity "=FOO(A1)" (fun _ => "z") (by decide) (by decide) (by decide)
    (by decide) (by decide) (by decide) (by decide) (by decide) (by decide) (by decide)
    (by decide)

/-- Claim C8.  The REMOVE_DUPLICATES branch slices its argument with
`slice(17, -1)` although `'REMOVE_DUPLICATES('` is 18 characters long, so the
extracted range text keeps the stray `'('`, the range parse fails to `[]`,
and the formula evaluates to `""` instead of the de-duplicated
first-occurrence join `"x, y"` that the claim (and the README's feature
description) requires. -/
theorem c8_remove_duplicates_failing :
    sliceDropLast (jsToUpper (jsDrop "=REMOVE_DUPLICATES(A1:A3)" 1)) 17 = "(A1:A3" ∧
    parseRange "(A1:A3" = ([] : List String) ∧
    evaluateFormula "=REMOVE_DUPLICATES(A1:A3)"
      (fun ref => if ref = "A1" then "x" else if ref = "A2" then "y" else "x") = "" ∧
    ("" : String) ≠ "x, y" := by decide

/-- Claim C9.  Grid dimensions never drop below one: after every sequence of
modelled store operations (including repeated `deleteRow`/`deleteColumn`,
undo/redo, paste, cut, clear, CSV import and recalculation) applied to the
initial state, `rows ≥ 1` and `cols ≥ 1` hold. -/
theorem c9_grid_dims_positive (ops : List Op) :
    1 ≤ (applyOps ops initialState).rows ∧ 1 ≤ (applyOps ops initialState).cols :=
  ⟨(stateOK_applyOps ops initialState stateOK_initial).1,
    (stateOK_applyOps ops initialState stateOK_initial).2.1⟩

/-- Claim C10.  `evaluateFormula` is the identity on any input that does not
begin with `'='`, for every cell-value lookup function. -/
theorem c10_eval_identity (formula : String) (g : String → String)
    (h : jsStartsWith formula "=" = false) : evaluateFormula formula g = formula := by
  unfold evaluateFormula
  simp [h]

theorem c10_eval_identity_witness :
    (jsStartsWith "hello" "=" = false) ∧
      evaluateFormula "hello" (fun _ => "") = "hello" :=
  ⟨by decide, c10_eval_identity "hello" (fun _ => "") (by decide)⟩

end Sheet
